import Mathlib

/-!
# Verification of the EVA-CLIP data-supply layer

Shallow embedding of `EVA-CLIP/rei/training/data.py`: the record grouper
(`group_by_keys_nothrow`), the deterministic reshuffler (`detshuffle2`),
the with-replacement shard resampler (`ResampledShards2`), the batch/sample
count arithmetic of `get_wds_dataset`, and the multi-source mixing scheduler
(`MixingDataLoader`), together with theorems about their specified behavior.

Python dictionaries with string keys are embedded as ordered association
lists with insert-or-overwrite-in-place semantics; external pseudo-random
primitives are threaded as explicit parameters (a seeding function and a
bounded-draw function over an abstract generator-state type), so every
stage is a pure, executable function.
-/

namespace EVA

/-! ## Samples as ordered string dictionaries

A webdataset sample is a Python `dict` mapping string keys (the bookkeeping
keys `__key__`, `__url__` and the stored file suffixes) to values; payloads
are embedded as strings. -/

/-- An archive entry as produced by `tar_file_expander`: the member file
name, its payload and the `__url__` of the shard it came from. -/
structure Entry where
  fname : String
  data : String
  url : String
deriving DecidableEq

/-- A sample: a Python dict as an ordered association list. -/
abbrev Sample := List (String × String)

/-- `d[k] = v` on a Python dict: overwrite in place if the key exists,
otherwise append at the end (insertion order is preserved). -/
def dictInsert (k v : String) (d : Sample) : Sample :=
  if (d.lookup k).isSome then
    d.map (fun p => if p.1 = k then (k, v) else p)
  else
    d ++ [(k, v)]

/-- `k in d` on a Python dict: key membership, bookkeeping keys included. -/
def dictMem (k : String) (d : Sample) : Bool :=
  (d.lookup k).isSome

/-- `current_sample["__key__"]`. -/
def sampleKey (d : Sample) : String :=
  (d.lookup "__key__").getD ""

/-- A field that is not bookkeeping metadata (`__key__`, `__url__`). -/
def isContentKey (k : String) : Bool :=
  k != "__key__" && k != "__url__"

/-- Does the sample hold at least one field besides its bookkeeping
metadata? -/
def hasContentField (d : Sample) : Bool :=
  d.any (fun p => isContentKey p.1)

/-- Modelled from the spec: `valid_sample` is imported from the external
`webdataset` library (`webdataset.tariterators`), which is not part of this
repository. Per the spec, a sample is valid iff it is non-null and has at
least one field besides the bookkeeping metadata (`key`, `sourceShard`). -/
def valid_sample : Option Sample → Bool
  | none => false
  | some d => hasContentField d

/-- `dict(__key__=prefix, __url__=filesample["__url__"])`: the fresh group
created at a group boundary. -/
def newSampleDict (pre url : String) : Sample :=
  [("__key__", pre), ("__url__", url)]

/-- `if suffixes is None or suffix in suffixes`. -/
def allowSuffix (suffixes : Option (List String)) (sfx : String) : Bool :=
  match suffixes with
  | none => true
  | some l => l.contains sfx

/-- `current_sample[suffix] = value`, guarded by the suffix allow-list. -/
def storeField (suffixes : Option (List String)) (sfx v : String)
    (d : Sample) : Sample :=
  if allowSuffix suffixes sfx then dictInsert sfx v d else d

/-- ASCII lower-casing of a character, as `str.lower()` acts on the ASCII
suffix strings handled here. -/
def charLower (c : Char) : Char :=
  if 'A' ≤ c ∧ c ≤ 'Z' then Char.ofNat (c.toNat + 32) else c

/-- `suffix.lower()`. -/
def strLower (s : String) : String :=
  ⟨s.data.map charLower⟩

/-- `if lcase: suffix = suffix.lower()`. -/
def applyLcase (lcase : Bool) (sfx : String) : String :=
  if lcase then strLower sfx else sfx

/-- The loop body and epilogue of `group_by_keys_nothrow` (data.py lines
217-242), as a recursion over the entry stream carrying `current_sample`.
`keysFn` is the caller-supplied splitting rule (the `keys` parameter,
`base_plus_ext` by default); entries it cannot split are skipped. -/
def groupRun (keysFn : String → Option (String × String)) (lcase : Bool)
    (suffixes : Option (List String)) :
    List Entry → Option Sample → List Sample
  | [], cur =>
      match cur with
      | none => []
      | some s => if valid_sample (some s) then [s] else []
  | e :: rest, cur =>
      match keysFn e.fname with
      | none => groupRun keysFn lcase suffixes rest cur
      | some (pre, sfx0) =>
          let sfx := applyLcase lcase sfx0
          match cur with
          | none =>
              groupRun keysFn lcase suffixes rest
                (some (storeField suffixes sfx e.data (newSampleDict pre e.url)))
          | some s =>
              if sampleKey s != pre || dictMem sfx s then
                (if valid_sample (some s) then [s] else []) ++
                  groupRun keysFn lcase suffixes rest
                    (some (storeField suffixes sfx e.data (newSampleDict pre e.url)))
              else
                groupRun keysFn lcase suffixes rest
                  (some (storeField suffixes sfx e.data s))

/-- `group_by_keys_nothrow(data, keys, lcase, suffixes)`: run the grouping
state machine over the whole entry stream starting with no current group. -/
def group_by_keys_nothrow (keysFn : String → Option (String × String))
    (lcase : Bool) (suffixes : Option (List String))
    (entries : List Entry) : List Sample :=
  groupRun keysFn lcase suffixes entries none

/-- Split a character list at its first dot, returning the (dot-free) part
before it and everything after it. -/
def splitAtFirstDot : List Char → Option (List Char × List Char)
  | [] => none
  | c :: cs =>
      if c = '.' then some ([], cs)
      else (splitAtFirstDot cs).map (fun p => (c :: p.1, p.2))

/-- Modelled from the spec: the default splitting rule `base_plus_ext` comes
from the external `webdataset` library and splits a filename into
`(prefix, extension)`; here it is given for slash-free filenames, where its
regex `^([^.]+)[.]([^/]*)$` splits at the first dot and fails when the name
has no dot or starts with a dot. -/
def base_plus_ext (fname : String) : Option (String × String) :=
  match splitAtFirstDot fname.data with
  | none => none
  | some (p, s) => if p = [] then none else some (⟨p⟩, ⟨s⟩)

/-- The claim's new-group condition, stated in its own words: the current
group is null, or the entry's prefix differs from the current group's key,
or the entry's extension is already present in the current group. -/
def startsNewGroupSpec (cur : Option Sample) (pre sfx : String) : Prop :=
  cur = none ∨ (∃ s, cur = some s ∧ (sampleKey s ≠ pre ∨ dictMem sfx s = true))

/-! ## SharedEpoch handles and the deterministic reshuffler `detshuffle2` -/

/-- The `epoch` field of `detshuffle2` / `ResampledShards2`: either a
`SharedEpoch` handle (holding its current value) or a plain integer counter
(the standalone `epoch=-1` mode). -/
inductive EpochSrc where
  | shared (v : Int)
  | loc (v : Int)
deriving DecidableEq

/-- The epoch resolution at the top of `detshuffle2.run` and
`ResampledShards2.__iter__`: read the `SharedEpoch` value, or increment the
stage's own local counter on every fresh iteration start. -/
def EpochSrc.resolve : EpochSrc → Int × EpochSrc
  | .shared v => (v, .shared v)
  | .loc v => (v + 1, .loc (v + 1))

/-- Modelled from the spec: the drain phase of the external webdataset
`_shuffle` stage — once the source is exhausted, emit the remaining buffer
contents in random order. `fuel` starts at the buffer length, so the whole
buffer is drained; `randbelow` is the generator's bounded draw. -/
def shuffleDrain {α ρ : Type} (randbelow : Nat → ρ → Nat × ρ) :
    Nat → List α → ρ → List α
  | 0, _, _ => []
  | _ + 1, [], _ => []
  | fuel + 1, b :: bs, g =>
      let buf := b :: bs
      let (k0, g') := randbelow buf.length g
      let k := k0 % buf.length
      buf.getD k b :: shuffleDrain randbelow fuel (buf.eraseIdx k) g'

/-- Modelled from the spec: the streaming phase of the external webdataset
`_shuffle` — fill the buffer until `initial` items are buffered (capped at
the buffer capacity by the caller); for each further item choose a random
occupied slot, emit its contents and store the new item in that slot; drain
when the source is exhausted. With an empty buffer (only possible when
`initial = 0`) the item passes straight through. -/
def shuffleStream {α ρ : Type} (randbelow : Nat → ρ → Nat × ρ)
    (initial : Nat) : List α → List α → ρ → List α
  | [], buf, g => shuffleDrain randbelow buf.length buf g
  | x :: rest, buf, g =>
      if buf.length < initial then
        shuffleStream randbelow initial rest (buf ++ [x]) g
      else
        match buf with
        | [] => x :: shuffleStream randbelow initial rest [] g
        | b :: bs =>
            let (k0, g') := randbelow (b :: bs).length g
            let k := k0 % (b :: bs).length
            (b :: bs).getD k b ::
              shuffleStream randbelow initial rest ((b :: bs).set k x) g'

/-- Modelled from the spec: the external `webdataset.filters._shuffle`
(bounded-memory streaming shuffle), with the fill target capped at the
buffer capacity. Deterministic given the seeded generator state. -/
def _shuffle {α ρ : Type} (randbelow : Nat → ρ → Nat × ρ) (src : List α)
    (bufsize initial : Nat) (g : ρ) : List α :=
  shuffleStream randbelow (min initial bufsize) src [] g

/-- The `detshuffle2` pipeline stage (data.py lines 273-302). -/
structure detshuffle2 where
  bufsize : Nat
  initial : Nat
  seed : Int
  epoch : EpochSrc
deriving DecidableEq

/-- The seed `detshuffle2.run` feeds its fresh generator:
`pytorch_worker_seed(epoch)` (an external function, passed as `ws`) when
the base seed is negative, else `self.seed + epoch`. -/
def detshuffle2.usedSeed (ws : Int → Int) (d : detshuffle2)
    (epoch : Int) : Int :=
  if d.seed < 0 then ws epoch else d.seed + epoch

/-- `detshuffle2.run(src)`: resolve the epoch, seed a fresh `random.Random`
(`seedRng` embeds `rng.seed(seed)`) and return the shuffled stream together
with the stage's updated state. -/
def detshuffle2.run {α ρ : Type} (seedRng : Int → ρ)
    (randbelow : Nat → ρ → Nat × ρ) (ws : Int → Int) (d : detshuffle2)
    (src : List α) : List α × detshuffle2 :=
  let (epoch, e') := d.epoch.resolve
  (_shuffle randbelow src d.bufsize d.initial
      (seedRng (d.usedSeed ws epoch)),
   { d with epoch := e' })

/-! ## The with-replacement shard resampler `ResampledShards2` -/

/-- The spec's fatal configuration errors (§7 taxonomy). -/
inductive ConfigError where
  | emptyShardList
deriving DecidableEq

/-- `ResampledShards2` state: the expanded url list, the draw count
(`nshards`), the optional override seed source (`worker_seed`, embedded as
the value the callable returns), the `deterministic` flag, the epoch source
and the private generator `self.rng`. -/
structure ResampledShards2 (ρ : Type) where
  urls : List String
  nshards : Nat
  worker_seed : Option Int
  deterministic : Bool
  epoch : EpochSrc
  rng : ρ

/-- `ResampledShards2.__init__` over an already-expanded url list: the line
`assert isinstance(self.urls[0], str)` indexes the first element, so an
empty shard list fails immediately at construction — a `ConfigurationError`
in the spec's taxonomy — before any draws are produced. -/
def ResampledShards2.mkInit {ρ : Type} (g0 : ρ) (urls : List String)
    (nshards : Nat) (worker_seed : Option Int) (deterministic : Bool)
    (epoch : EpochSrc) : Except ConfigError (ResampledShards2 ρ) :=
  match urls with
  | [] => .error .emptyShardList
  | u :: rest => .ok ⟨u :: rest, nshards, worker_seed, deterministic, epoch, g0⟩

/-- `self.rng.choice(self.urls)`: draw an index below the list length and
return that element. -/
def rngChoice {ρ : Type} (randbelow : Nat → ρ → Nat × ρ)
    (urls : List String) (g : ρ) : String × ρ :=
  let (k, g') := randbelow urls.length g
  (urls.getD k "", g')

/-- The `for _ in range(self.nshards): yield dict(url=self.rng.choice(...))`
loop: `n` independent draws with replacement, threading the generator. -/
def drawShards {ρ : Type} (randbelow : Nat → ρ → Nat × ρ)
    (urls : List String) : Nat → ρ → List String × ρ
  | 0, g => ([], g)
  | n + 1, g =>
      let (u, g') := rngChoice randbelow urls g
      let (rest, g'') := drawShards randbelow urls n g'
      (u :: rest, g'')

/-- `ResampledShards2.__iter__`: resolve the epoch; if `deterministic`,
reseed the private generator with `worker_seed() + epoch` (or the external
`pytorch_worker_seed(epoch)`, passed as `pws`, when no `worker_seed` is
given); then yield `nshards` draws with replacement from the url list. -/
def ResampledShards2.iter {ρ : Type} (seedRng : Int → ρ)
    (randbelow : Nat → ρ → Nat × ρ) (pws : Int → Int)
    (st : ResampledShards2 ρ) : List String × ResampledShards2 ρ :=
  let (epoch, e') := st.epoch.resolve
  let g0 :=
    if st.deterministic then
      seedRng (match st.worker_seed with
        | none => pws epoch
        | some w => w + epoch)
    else st.rng
  let (out, gF) := drawShards randbelow st.urls st.nshards g0
  (out, { st with epoch := e', rng := gF })

/-! ## Batch/sample count arithmetic of `get_wds_dataset` -/

/-- `round_fn = math.floor if floor else math.ceil`, applied to the exact
rational quotient. -/
def round_fn (floorFlag : Bool) (x : ℚ) : ℕ :=
  if floorFlag then ⌊x⌋₊ else ⌈x⌉₊

/-- The training-mode count adjustment of `get_wds_dataset` (data.py lines
466-473): every distributed rank and every per-rank worker gets an equal
integer number of batches. -/
structure WdsTrainCounts where
  num_batches : ℕ
  num_samples : ℕ
  num_worker_batches : ℕ
deriving DecidableEq

/-- `get_wds_dataset` training counts: `num_batches = round_fn(num_samples
/ global_batch_size)`, `num_worker_batches = round_fn(num_batches /
max(1, workers))`, then `num_batches = num_worker_batches * num_workers`
and `num_samples = num_batches * global_batch_size`. -/
def wdsTrainCounts (floorFlag : Bool)
    (num_samples batch_size world_size workers : ℕ) : WdsTrainCounts :=
  let global_batch_size := batch_size * world_size
  let nb0 := round_fn floorFlag
    ((num_samples : ℚ) / (global_batch_size : ℚ))
  let num_workers := max 1 workers
  let num_worker_batches := round_fn floorFlag ((nb0 : ℚ) / (num_workers : ℚ))
  let nb1 := num_worker_batches * num_workers
  ⟨nb1, nb1 * global_batch_size, num_worker_batches⟩

/-- `get_wds_dataset` evaluation count: `math.ceil(num_samples /
batch_size)`, a final partial batch allowed. -/
def wdsEvalNumBatches (num_samples batch_size : ℕ) : ℕ :=
  ⌈(num_samples : ℚ) / (batch_size : ℚ)⌉₊

/-! ## The mixing scheduler `MixingDataLoader`

One sub-pipeline (`DataInfo` plus its dataloader) is embedded as `MixSub`:
its declared counts, the family of iterators `iter(dataloader)` returns
(the `k`-th recreation may produce a different stream, e.g. after an
internal reshuffle), and its optional `SharedEpoch` counter. The
`DistributedSampler` branch of `DataInfo.set_epoch` does not apply to the
webdataset sub-pipelines scheduled here and is not represented. -/

/-- A single-source sub-pipeline as the scheduler sees it. -/
structure MixSub (β : Type) where
  num_batches : ℕ
  num_samples : ℕ
  mkIter : ℕ → List β
  epochCounter : Option ℕ

/-- `DataInfo.set_epoch(epoch)`: write the new value into the sub-pipeline's
`SharedEpoch` when it has one. -/
def MixSub.set_epoch {β : Type} (e : ℕ) (sub : MixSub β) : MixSub β :=
  { sub with epochCounter := sub.epochCounter.map (fun _ => e) }

/-- The mutable state of a `MixingDataLoader`. -/
structure MixState (β : Type) where
  subs : List (MixSub β)
  iters : List (List β)
  iterCounts : List ℕ
  num_datasets : ℕ
  num_batches : ℕ
  num_samples : ℕ
  weights : Option (List ℚ)
  count : ℕ
  current_epoch : ℕ
  distributed : Bool

/-- `for data_info in self.data_train: data_info.set_epoch(e)`. -/
def setEpochAll {β : Type} (e : ℕ) (st : MixState β) : MixState β :=
  { st with subs := st.subs.map (MixSub.set_epoch e) }

/-- `MixingDataLoader.__init__` (data.py lines 511-557): totals are the
sums of the sources' declared counts; `sample_weights`, when enabled, are
each source's sample-count share; one iterator per source is created; and
in distributed mode the initial epoch is propagated to every sub-pipeline. -/
def mixInit {β : Type} (subs : List (MixSub β)) (epoch : ℕ)
    (sample_weights distributed : Bool) : MixState β :=
  let nb := (subs.map (fun sub => sub.num_batches)).sum
  let ns := (subs.map (fun sub => sub.num_samples)).sum
  let st : MixState β :=
    { subs := subs
      iters := subs.map (fun sub => sub.mkIter 0)
      iterCounts := subs.map (fun _ => 1)
      num_datasets := subs.length
      num_batches := nb
      num_samples := ns
      weights :=
        if sample_weights then
          some (subs.map (fun sub => (sub.num_samples : ℚ) / (ns : ℚ)))
        else none
      count := 0
      current_epoch := epoch
      distributed := distributed }
  if distributed then setEpochAll epoch st else st

/-- `MixingDataLoader.__len__`: returns `self.num_samples`. -/
def mixLen {β : Type} (st : MixState β) : ℕ :=
  st.num_samples

/-- The per-batch source selection (data.py lines 571-578): with weights,
seed `np.random` with `count + num_batches * current_epoch` and draw from
the categorical distribution over the weight vector (`npChoice` embeds the
seeded `np.random.choice(range(n), p=w)`, a deterministic function of the
seed and the weights); without weights, plain round robin. -/
def selectIndex {β : Type} (npChoice : ℕ → List ℚ → ℕ)
    (st : MixState β) : ℕ :=
  match st.weights with
  | some w => npChoice (st.count + st.num_batches * st.current_epoch) w
  | none => st.count % st.num_datasets

/-- One observable step of `MixingDataLoader.__iter__`: a batch, the end of
the epoch pass (the generator `return`s), or a propagated error. -/
inductive MixStep (β : Type) where
  | yield (b : β) (st : MixState β)
  | epochEnd (st : MixState β)
  | stopFatal
  | indexError

/-- The pull with one-shot recovery (data.py lines 579-589): `next` on the
chosen source's iterator; on `StopIteration`, recreate the iterator from
the dataloader and retry once — a second exhaustion propagates to the
caller (`stopFatal`). On success `self.count` is incremented. -/
def mixPull {β : Type} (i : ℕ) (st : MixState β) : MixStep β :=
  match st.iters.get? i with
  | none => .indexError
  | some (b :: rest) =>
      .yield b { st with iters := st.iters.set i rest, count := st.count + 1 }
  | some [] =>
      match st.subs.get? i with
      | none => .indexError
      | some sub =>
          let k := st.iterCounts.getD i 1
          match sub.mkIter k with
          | [] => .stopFatal
          | b :: rest =>
              .yield b { st with
                iters := st.iters.set i rest,
                iterCounts := st.iterCounts.set i (k + 1),
                count := st.count + 1 }

/-- One iteration of the `while True` loop of `MixingDataLoader.__iter__`
(data.py lines 561-591): at `count == num_batches` increment the epoch,
reset the round counter, propagate the new epoch to the sub-pipelines when
`args.distributed` is set, and end the pass; otherwise select a source and
pull a batch from it. -/
def mixStep {β : Type} (npChoice : ℕ → List ℚ → ℕ)
    (st : MixState β) : MixStep β :=
  if st.count = st.num_batches then
    let st1 := { st with current_epoch := st.current_epoch + 1, count := 0 }
    .epochEnd (if st.distributed then setEpochAll st1.current_epoch st1 else st1)
  else
    mixPull (selectIndex npChoice st) st

/-- The state carried by a non-terminal step, used to chain concrete steps. -/
def mixStepState {β : Type} : MixStep β → Option (MixState β)
  | .yield _ st => some st
  | .epochEnd st => some st
  | .stopFatal => none
  | .indexError => none

/-! ## Theorems -/

/-- C2: the grouper starts a new group exactly when the current group is
null, or the entry's prefix differs from the current group's key, or the
entry's (lower-cased) extension is already present in the current group;
and on input `[("a.jpg",b1),("a.jpg",b2)]` it yields two separate samples,
each containing one `jpg` field, never one merged sample. -/
theorem group_by_keys_nothrow_new_group_iff :
    (∀ (keysFn : String → Option (String × String))
        (suffixes : Option (List String)) (e : Entry) (rest : List Entry)
        (cur : Option Sample) (pre sfx0 : String),
        keysFn e.fname = some (pre, sfx0) →
        ((startsNewGroupSpec cur pre (strLower sfx0) →
          groupRun keysFn true suffixes (e :: rest) cur =
            (if valid_sample cur then cur.toList else []) ++
              groupRun keysFn true suffixes rest
                (some (storeField suffixes (strLower sfx0) e.data
                  (newSampleDict pre e.url)))) ∧
         (¬ startsNewGroupSpec cur pre (strLower sfx0) →
          ∃ s, cur = some s ∧
            groupRun keysFn true suffixes (e :: rest) cur =
              groupRun keysFn true suffixes rest
                (some (storeField suffixes (strLower sfx0) e.data s))))) ∧
    group_by_keys_nothrow base_plus_ext true none
        [⟨"a.jpg", "b1", "u"⟩, ⟨"a.jpg", "b2", "u"⟩] =
      [[("__key__", "a"), ("__url__", "u"), ("jpg", "b1")],
       [("__key__", "a"), ("__url__", "u"), ("jpg", "b2")]] := by
  refine ⟨?_, by decide⟩
  intro keysFn suffixes e rest cur pre sfx0 hk
  constructor
  · intro hspec
    cases cur with
    | none => simp [groupRun, hk, applyLcase, valid_sample]
    | some s =>
        have hb : (sampleKey s != pre || dictMem (strLower sfx0) s) = true := by
          rcases hspec with h | ⟨s', hs', hcond⟩
          · exact absurd h (by simp)
          · cases Option.some.inj hs'
            rcases hcond with h1 | h2
            · simp [bne_iff_ne, h1]
            · simp [h2]
        simp [groupRun, hk, applyLcase, hb]
  · intro hns
    cases cur with
    | none => exact absurd (Or.inl rfl) hns
    | some s =>
        have h1 : sampleKey s = pre := by
          by_contra hne
          exact hns (Or.inr ⟨s, rfl, Or.inl hne⟩)
        have h2 : dictMem (strLower sfx0) s = false := by
          rcases Bool.eq_false_or_eq_true (dictMem (strLower sfx0) s) with h | h
          · exact absurd (Or.inr ⟨s, rfl, Or.inr h⟩) hns
          · exact h
        have hb : (sampleKey s != pre || dictMem (strLower sfx0) s) = false := by
          simp [bne_iff_ne, h1, h2]
        exact ⟨s, rfl, by simp [groupRun, hk, applyLcase, hb]⟩

/-- A witness for the C2 theorem: at the concrete second entry of the
boundary tie-break test, the duplicate `jpg` extension forces a new group. -/
theorem group_by_keys_nothrow_new_group_iff_w :
    groupRun base_plus_ext true none [⟨"a.jpg", "b2", "u"⟩]
        (some [("__key__", "a"), ("__url__", "u"), ("jpg", "b1")]) =
      (if valid_sample
          (some [("__key__", "a"), ("__url__", "u"), ("jpg", "b1")]) then
        (some [("__key__", "a"), ("__url__", "u"), ("jpg", "b1")] :
          Option Sample).toList
      else []) ++
        groupRun base_plus_ext true none []
          (some (storeField none (strLower "jpg") "b2"
            (newSampleDict "a" "u"))) :=
  (group_by_keys_nothrow_new_group_iff.1 base_plus_ext none ⟨"a.jpg", "b2", "u"⟩
    [] _ "a" "jpg" (by decide)).1 (Or.inr ⟨_, rfl, Or.inr (by decide)⟩)

/-- Every sample a `groupRun` ever emits has a content field: emissions are
guarded by `valid_sample`, both at group boundaries and at end of stream. -/
lemma groupRun_mem_hasContent (keysFn : String → Option (String × String))
    (lcase : Bool) (suffixes : Option (List String)) :
    ∀ (entries : List Entry) (cur : Option Sample) (s : Sample),
      s ∈ groupRun keysFn lcase suffixes entries cur →
      hasContentField s = true := by
  intro entries
  induction entries with
  | nil =>
      intro cur s h
      cases cur with
      | none => simp [groupRun] at h
      | some s' =>
          rcases Bool.eq_false_or_eq_true (valid_sample (some s')) with hv | hv
          · simp [groupRun, hv] at h
            subst h
            simpa [valid_sample] using hv
          · simp [groupRun, hv] at h
  | cons e rest ih =>
      intro cur s h
      simp only [groupRun] at h
      split at h
      · exact ih _ _ h
      · split at h
        · exact ih _ _ h
        · split at h
          · rcases List.mem_append.mp h with h1 | h2
            · split at h1
              · next hv =>
                  simp at h1
                  subst h1
                  simpa [valid_sample] using hv
              · simp at h1
            · exact ih _ _ h2
          · exact ih _ _ h

/-- C4: every sample emitted by `group_by_keys_nothrow` has at least one
field besides the bookkeeping metadata `__key__` and `__url__`; incomplete
groups are dropped rather than emitted, both at a group boundary and at end
of stream. -/
theorem group_by_keys_nothrow_only_valid_samples
    (keysFn : String → Option (String × String)) (lcase : Bool)
    (suffixes : Option (List String)) (entries : List Entry) (s : Sample)
    (hmem : s ∈ group_by_keys_nothrow keysFn lcase suffixes entries) :
    hasContentField s = true :=
  groupRun_mem_hasContent keysFn lcase suffixes entries none s hmem

/-- A witness for the C4 theorem at a concrete stream. -/
theorem group_by_keys_nothrow_only_valid_samples_w :
    hasContentField [("__key__", "a"), ("__url__", "u"), ("jpg", "b1")] =
      true :=
  group_by_keys_nothrow_only_valid_samples base_plus_ext true none
    [⟨"a.jpg", "b1", "u"⟩] _ (by decide)

/-- C3: for a `detshuffle2` with base seed `≥ 0` reading a shared epoch
`e`, the shuffle seed is exactly `baseSeed + e`, and two independently run,
equally configured stages over the same input sequence produce identical
output orderings. -/
theorem detshuffle2_deterministic {α ρ : Type} (seedRng : Int → ρ)
    (randbelow : Nat → ρ → Nat × ρ) (ws : Int → Int)
    (d₁ d₂ : detshuffle2) (src : List α) (e : Int)
    (hseed : 0 ≤ d₁.seed) (hs : d₁.seed = d₂.seed)
    (he₁ : d₁.epoch = .shared e) (he₂ : d₂.epoch = .shared e)
    (hb : d₁.bufsize = d₂.bufsize) (hi : d₁.initial = d₂.initial) :
    detshuffle2.usedSeed ws d₁ e = d₁.seed + e ∧
    (detshuffle2.run seedRng randbelow ws d₁ src).1 =
      (detshuffle2.run seedRng randbelow ws d₂ src).1 := by
  constructor
  · unfold detshuffle2.usedSeed
    rw [if_neg (by omega)]
  · unfold detshuffle2.run
    simp [he₁, he₂, EpochSrc.resolve, detshuffle2.usedSeed, hs, hb, hi]

/-- A witness for the C3 theorem at a concrete stage and input. -/
theorem detshuffle2_deterministic_w :
    detshuffle2.usedSeed id ⟨2, 1, 5, .shared 3⟩ 3 =
      (⟨2, 1, 5, .shared 3⟩ : detshuffle2).seed + 3 ∧
    (detshuffle2.run (fun s => s.toNat) (fun n g => (g % n, g + 1)) id
        ⟨2, 1, 5, .shared 3⟩ [10, 20, 30]).1 =
      (detshuffle2.run (fun s => s.toNat) (fun n g => (g % n, g + 1)) id
        ⟨2, 1, 5, .shared 3⟩ [10, 20, 30]).1 :=
  detshuffle2_deterministic (fun s => s.toNat) (fun n g => (g % n, g + 1)) id
    ⟨2, 1, 5, .shared 3⟩ ⟨2, 1, 5, .shared 3⟩ [10, 20, 30] 3
    (by decide) rfl rfl rfl rfl rfl

/-- Draws with replacement stay inside the url list, provided the bounded
draw respects its contract and the list is non-empty. -/
lemma drawShards_mem {ρ : Type} (randbelow : Nat → ρ → Nat × ρ)
    (urls : List String)
    (hrb : ∀ n g, 0 < n → (randbelow n g).1 < n) (hne : urls ≠ []) :
    ∀ (n : ℕ) (g : ρ) (u : String),
      u ∈ (drawShards randbelow urls n g).1 → u ∈ urls := by
  intro n
  induction n with
  | zero => intro g u hu; simp [drawShards] at hu
  | succ n ih =>
      intro g u hu
      simp only [drawShards, rngChoice] at hu
      rcases List.mem_cons.mp hu with h | h
      · subst h
        have hk : (randbelow urls.length g).1 < urls.length :=
          hrb _ _ (List.length_pos.mpr hne)
        rw [List.getD_eq_getElem urls "" hk]
        exact List.getElem_mem hk
      · exact ih _ _ h

/-- C7: a deterministic `ResampledShards2` at a fixed shared epoch draws
`nshards` identifiers that are all members of the shard list; its output
does not depend on the incoming generator state (each iteration start
reseeds the private generator); and a repeated iteration from the updated
state reproduces the identical sequence. -/
theorem ResampledShards2_deterministic_draws {ρ : Type} (seedRng : Int → ρ)
    (randbelow : Nat → ρ → Nat × ρ) (pws : Int → Int)
    (st : ResampledShards2 ρ) (e : Int)
    (hdet : st.deterministic = true) (hep : st.epoch = .shared e)
    (hrb : ∀ n g, 0 < n → (randbelow n g).1 < n) (hne : st.urls ≠ []) :
    (∀ u ∈ (ResampledShards2.iter seedRng randbelow pws st).1, u ∈ st.urls) ∧
    (∀ g : ρ,
      (ResampledShards2.iter seedRng randbelow pws { st with rng := g }).1 =
        (ResampledShards2.iter seedRng randbelow pws st).1) ∧
    (ResampledShards2.iter seedRng randbelow pws
        (ResampledShards2.iter seedRng randbelow pws st).2).1 =
      (ResampledShards2.iter seedRng randbelow pws st).1 := by
  refine ⟨?_, ?_, ?_⟩
  · intro u hu
    apply drawShards_mem randbelow st.urls hrb hne st.nshards _ u
    simpa [ResampledShards2.iter, hep, hdet, EpochSrc.resolve] using hu
  · intro g
    simp [ResampledShards2.iter, hep, hdet, EpochSrc.resolve]
  · simp [ResampledShards2.iter, hep, hdet, EpochSrc.resolve]

/-- A witness for the C7 theorem: three shards, two draws, a concrete
generator model. -/
theorem ResampledShards2_deterministic_draws_w :
    (∀ u ∈ (ResampledShards2.iter (fun s => s.toNat)
        (fun n g => (g % n, g + 1)) id
        (⟨["s1", "s2", "s3"], 2, some 7, true, .shared 4, 0⟩ :
          ResampledShards2 ℕ)).1,
      u ∈ ["s1", "s2", "s3"]) ∧
    (∀ g : ℕ,
      (ResampledShards2.iter (fun s => s.toNat) (fun n g => (g % n, g + 1)) id
        { (⟨["s1", "s2", "s3"], 2, some 7, true, .shared 4, 0⟩ :
            ResampledShards2 ℕ) with rng := g }).1 =
        (ResampledShards2.iter (fun s => s.toNat) (fun n g => (g % n, g + 1))
          id (⟨["s1", "s2", "s3"], 2, some 7, true, .shared 4, 0⟩ :
            ResampledShards2 ℕ)).1) ∧
    (ResampledShards2.iter (fun s => s.toNat) (fun n g => (g % n, g + 1)) id
        (ResampledShards2.iter (fun s => s.toNat) (fun n g => (g % n, g + 1))
          id (⟨["s1", "s2", "s3"], 2, some 7, true, .shared 4, 0⟩ :
            ResampledShards2 ℕ)).2).1 =
      (ResampledShards2.iter (fun s => s.toNat) (fun n g => (g % n, g + 1)) id
        (⟨["s1", "s2", "s3"], 2, some 7, true, .shared 4, 0⟩ :
          ResampledShards2 ℕ)).1 :=
  ResampledShards2_deterministic_draws (fun s => s.toNat)
    (fun n g => (g % n, g + 1)) id
    ⟨["s1", "s2", "s3"], 2, some 7, true, .shared 4, 0⟩ 4 rfl rfl
    (fun n g hn => Nat.mod_lt g hn) (by decide)

/-- C8: constructing a `ResampledShards2` over an empty shard list fails
immediately with the spec's `ConfigurationError`, before any draws are
produced. -/
theorem ResampledShards2_empty_shard_list_fails {ρ : Type} (g0 : ρ)
    (nshards : Nat) (worker_seed : Option Int) (deterministic : Bool)
    (epoch : EpochSrc) :
    ResampledShards2.mkInit g0 [] nshards worker_seed deterministic epoch =
      .error .emptyShardList :=
  rfl

/-- C9: for training, `numBatches = round_fn(declaredSamples / (batchSize *
worldSize))`, then `numWorkerBatches = round_fn(numBatches / numWorkers)`,
the final declared batch count is exactly `numWorkerBatches * numWorkers`,
and the declared samples are recomputed as that batch count times the
global batch size; for evaluation the batch count is
`ceil(declaredSamples / batchSize)`. -/
theorem get_wds_dataset_counts (floorFlag : Bool)
    (ns bs ws wk : ℕ) (hwk : 0 < wk) :
    (wdsTrainCounts floorFlag ns bs ws wk).num_worker_batches =
      round_fn floorFlag
        (((round_fn floorFlag ((ns : ℚ) / ((bs * ws : ℕ) : ℚ))) : ℚ) /
          (wk : ℚ)) ∧
    (wdsTrainCounts floorFlag ns bs ws wk).num_batches =
      (wdsTrainCounts floorFlag ns bs ws wk).num_worker_batches * wk ∧
    (wdsTrainCounts floorFlag ns bs ws wk).num_samples =
      (wdsTrainCounts floorFlag ns bs ws wk).num_batches * (bs * ws) ∧
    wdsEvalNumBatches ns bs = ⌈(ns : ℚ) / (bs : ℚ)⌉₊ := by
  have hmax : max 1 wk = wk := Nat.max_eq_right hwk
  refine ⟨?_, ?_, ?_, rfl⟩ <;> simp [wdsTrainCounts, hmax]

/-- A witness for the C9 theorem: 1000 samples, batch size 32, world size
4, 3 workers. -/
theorem get_wds_dataset_counts_w :
    (wdsTrainCounts false 1000 32 4 3).num_worker_batches =
      round_fn false
        (((round_fn false ((1000 : ℚ) / ((32 * 4 : ℕ) : ℚ))) : ℚ) /
          (3 : ℚ)) ∧
    (wdsTrainCounts false 1000 32 4 3).num_batches =
      (wdsTrainCounts false 1000 32 4 3).num_worker_batches * 3 ∧
    (wdsTrainCounts false 1000 32 4 3).num_samples =
      (wdsTrainCounts false 1000 32 4 3).num_batches * (32 * 4) ∧
    wdsEvalNumBatches 1000 32 = ⌈(1000 : ℚ) / (32 : ℚ)⌉₊ :=
  get_wds_dataset_counts false 1000 32 4 3 (by decide)

/-- C1 (counterexample): a non-distributed mixing session. After its single
declared batch, the step ends the pass with `current_epoch = 1` and
`count = 0`, yet the sub-pipeline's epoch counter still holds `0`, not the
new epoch value the claim requires. -/
theorem mix_epoch_propagation_cex :
    ((mixStepState (mixStep (fun _ _ => 0)
        (mixInit [⟨1, 4, fun _ => [()], some 0⟩] 0 false false))).bind
      (fun st₁ => mixStepState (mixStep (fun _ _ => 0) st₁))).map
        (fun st₂ =>
          (st₂.current_epoch, st₂.count,
            st₂.subs.map (fun sub => sub.epochCounter))) =
      some (1, 0, [some 0]) ∧ (some 0 : Option ℕ) ≠ some 1 := by
  constructor
  · rfl
  · decide

/-- C1 (amended): at `count = num_batches` (the sum of the sources'
declared batch counts), the step increments the epoch by exactly one,
resets the round counter to 0 and ends the iteration pass; the new epoch
value is written to every sub-pipeline's epoch counter when the loader is
in distributed mode, while otherwise the sub-pipelines are left untouched. -/
theorem mix_epoch_boundary {β : Type} (npChoice : ℕ → List ℚ → ℕ)
    (st : MixState β) (hc : st.count = st.num_batches)
    (hnb : st.num_batches = (st.subs.map (fun sub => sub.num_batches)).sum) :
    ∃ st', mixStep npChoice st = .epochEnd st' ∧
      st'.current_epoch = st.current_epoch + 1 ∧
      st'.count = 0 ∧
      (st.distributed = true →
        ∀ sub ∈ st'.subs, sub.epochCounter = none ∨
          sub.epochCounter = some (st.current_epoch + 1)) ∧
      (st.distributed = false → st'.subs = st.subs) := by
  refine ⟨_, by rw [mixStep, if_pos hc], ?_, ?_, ?_, ?_⟩
  · cases h : st.distributed <;> simp [h, setEpochAll]
  · cases h : st.distributed <;> simp [h, setEpochAll]
  · intro hd sub hsub
    rw [hd] at hsub
    simp only [if_true, setEpochAll, List.mem_map] at hsub
    obtain ⟨x, _, rfl⟩ := hsub
    cases hx : x.epochCounter with
    | none => left; simp [MixSub.set_epoch, hx]
    | some v => right; simp [MixSub.set_epoch, hx]
  · intro hd
    simp [hd]

/-- A witness for the amended C1 theorem: a distributed session with one
source of one declared batch, taken at its epoch boundary. -/
theorem mix_epoch_boundary_w :
    ∃ st', mixStep (fun _ _ => 0)
        ({ mixInit [⟨1, 4, fun _ => [()], some 0⟩] 0 false true with
            count := 1 } : MixState Unit) = .epochEnd st' ∧
      st'.current_epoch =
        ({ mixInit [⟨1, 4, fun _ => [()], some 0⟩] 0 false true with
            count := 1 } : MixState Unit).current_epoch + 1 ∧
      st'.count = 0 ∧
      (({ mixInit [⟨1, 4, fun _ => [()], some 0⟩] 0 false true with
            count := 1 } : MixState Unit).distributed = true →
        ∀ sub ∈ st'.subs, sub.epochCounter = none ∨
          sub.epochCounter = some
            (({ mixInit [⟨1, 4, fun _ => [()], some 0⟩] 0 false true with
                count := 1 } : MixState Unit).current_epoch + 1)) ∧
      (({ mixInit [⟨1, 4, fun _ => [()], some 0⟩] 0 false true with
            count := 1 } : MixState Unit).distributed = false →
        st'.subs = ({ mixInit [⟨1, 4, fun _ => [()], some 0⟩] 0 false true with
            count := 1 } : MixState Unit).subs) :=
  mix_epoch_boundary (fun _ _ => 0) _ rfl rfl

/-- C5: in the scheduler's pull at the selected source, a batch from the
active iterator advances the round counter; on exhaustion, a fresh iterator
over the same source is created and retried exactly once — success stores
the advanced fresh iterator and increments the round counter, while a
second exhaustion propagates to the caller. -/
theorem mix_pull_retry_once {β : Type} (npChoice : ℕ → List ℚ → ℕ)
    (st : MixState β) (i : ℕ) (sub : MixSub β)
    (hc : st.count ≠ st.num_batches) (hi : i = selectIndex npChoice st)
    (hsub : st.subs.get? i = some sub) :
    (∀ b rest, st.iters.get? i = some (b :: rest) →
      mixStep npChoice st =
        .yield b { st with iters := st.iters.set i rest,
                           count := st.count + 1 }) ∧
    (st.iters.get? i = some [] →
      ((sub.mkIter (st.iterCounts.getD i 1) = [] →
        mixStep npChoice st = .stopFatal) ∧
       (∀ b rest, sub.mkIter (st.iterCounts.getD i 1) = b :: rest →
        mixStep npChoice st =
          .yield b { st with iters := st.iters.set i rest,
                             iterCounts := st.iterCounts.set i
                               (st.iterCounts.getD i 1 + 1),
                             count := st.count + 1 }))) := by
  subst hi
  constructor
  · intro b rest hit
    rw [mixStep, if_neg hc, mixPull, hit]
  · intro hit
    constructor
    · intro hmk
      rw [mixStep, if_neg hc, mixPull, hit, hsub]
      simp only [hmk]
    · intro b rest hmk
      rw [mixStep, if_neg hc, mixPull, hit, hsub]
      simp only [hmk]

/-- A witness for the C5 theorem: a source whose initial iterator is empty
and whose recreated iterator is empty again — the single retry fails and
the error propagates. -/
theorem mix_pull_retry_once_w :
    mixStep (fun _ _ => 0)
        (mixInit [⟨1, 4, fun _ => ([] : List Unit), none⟩] 0 false false) =
      .stopFatal :=
  ((mix_pull_retry_once (fun _ _ => 0)
      (mixInit [⟨1, 4, fun _ => ([] : List Unit), none⟩] 0 false false)
      0 ⟨1, 4, fun _ => ([] : List Unit), none⟩
      (by decide) rfl rfl).2 rfl).1 rfl

/-- C6: per batch, with weights configured the source index is the seeded
categorical draw at seed `count + num_batches * current_epoch` over the
weight vector — a deterministic function of the round counter, the epoch
and the weights; without weights it is `count mod num_datasets`. -/
theorem mix_selection_rule {β : Type} (npChoice : ℕ → List ℚ → ℕ)
    (st : MixState β) :
    (∀ w, st.weights = some w →
      selectIndex npChoice st =
        npChoice (st.count + st.num_batches * st.current_epoch) w) ∧
    (st.weights = none →
      selectIndex npChoice st = st.count % st.num_datasets) ∧
    (∀ st' : MixState β, st'.count = st.count →
      st'.current_epoch = st.current_epoch →
      st'.num_batches = st.num_batches →
      st'.num_datasets = st.num_datasets → st'.weights = st.weights →
      selectIndex npChoice st' = selectIndex npChoice st) := by
  refine ⟨?_, ?_, ?_⟩
  · intro w hw
    rw [selectIndex, hw]
  · intro hw
    rw [selectIndex, hw]
  · intro st' h1 h2 h3 h4 h5
    rw [selectIndex, selectIndex, h1, h2, h3, h4, h5]

/-- A witness for the C6 theorem: an unweighted two-source session selects
round-robin. -/
theorem mix_selection_rule_w :
    selectIndex (fun _ _ => 0)
        (mixInit [⟨1, 4, fun _ => [()], none⟩, ⟨1, 4, fun _ => [()], none⟩]
          0 false false) =
      (mixInit [⟨1, 4, fun _ => [()], none⟩, ⟨1, 4, fun _ => [()], none⟩]
          0 false false : MixState Unit).count %
        (mixInit [⟨1, 4, fun _ => [()], none⟩, ⟨1, 4, fun _ => [()], none⟩]
          0 false false : MixState Unit).num_datasets :=
  (mix_selection_rule (fun _ _ => 0)
    (mixInit [⟨1, 4, fun _ => [()], none⟩, ⟨1, 4, fun _ => [()], none⟩]
      0 false false)).2.1 rfl

/-- C10: `MixingDataLoader.__len__` returns the declared total sample count
— the sum of every source dataloader's `num_samples` — and not the number
of batches produced per pass (a concrete session has `len = 64` while its
per-pass batch total is 2). -/
theorem MixingDataLoader_len :
    (∀ (β : Type) (subs : List (MixSub β)) (epoch : ℕ) (sw dist : Bool),
      mixLen (mixInit subs epoch sw dist) =
        (subs.map (fun sub => sub.num_samples)).sum) ∧
    mixLen (mixInit [⟨2, 64, fun _ => [()], none⟩] 0 false false :
      MixState Unit) = 64 ∧
    (mixInit [⟨2, 64, fun _ => [()], none⟩] 0 false false :
      MixState Unit).num_batches = 2 ∧
    (64 : ℕ) ≠ 2 := by
  refine ⟨?_, rfl, rfl, by decide⟩
  intro β subs epoch sw dist
  cases dist <;> simp [mixLen, mixInit, setEpochAll]

end EVA
